import Mathlib

/-!
Verification development for the TileStache Mapbox vector-tile encoder
(`TileStache/Goodies/VecTiles/mapbox.py`).

The Python module is embedded shallowly:
* Python integers are `Int` (arbitrary precision, as in Python 2); the
  bitwise operators `<<`, `>>`, `^`, `&`, `|` on them are modelled by
  the `py*` functions below, which implement the two's-complement
  semantics Python uses for negative operands (`>>` is an arithmetic /
  floor shift).
* Geometry coordinates are modelled as integers; the source applies
  `int(x)` truncation to its (float) inputs, which on integer-valued
  inputs is the identity.  Claims about coordinates are therefore
  stated over integer vertices.
* The mutable protobuf objects (`layer`, `feature`) are modelled by
  records holding the fields the source writes; `f.geometry` is a
  `List Int` mutated by append and `__setitem__` (`listSet`).
* Python exceptions (`IndexError` from `feature[2]`,
  `NotImplementedError` from `_parseGeometry`, the unknown-command
  `Exception` in `_geo_encode`) become `Except String` / `Option`
  results.  A raised exception aborts the encode call; the partially
  mutated tile object is abandoned, so the error-returning embedding
  is observationally faithful.
-/

/-! ## Python bitwise primitives on unbounded integers -/

/-- Python `n << k` on an unbounded integer: multiplication by `2 ^ k`. -/
def pyShl (n : Int) (k : Nat) : Int := n * (2 ^ k : Nat)

/-- Python `n >> k`: arithmetic (floor) right shift in two's complement.
`-(m+1) >> k = -((m >> k) + 1)` is the standard infinite-two's-complement law. -/
def pyShr (n : Int) (k : Nat) : Int :=
  match n with
  | .ofNat m => .ofNat (m >>> k)
  | .negSucc m => .negSucc (m >>> k)

/-- Python `a ^ b` (bitwise xor) in infinite two's complement. -/
def pyXor : Int → Int → Int
  | .ofNat m, .ofNat n => .ofNat (m ^^^ n)
  | .ofNat m, .negSucc n => .negSucc (m ^^^ n)
  | .negSucc m, .ofNat n => .negSucc (m ^^^ n)
  | .negSucc m, .negSucc n => .ofNat (m ^^^ n)

/-- Python `a & b` (bitwise and) in infinite two's complement. -/
def pyAnd : Int → Int → Int
  | .ofNat m, .ofNat n => .ofNat (m &&& n)
  | .ofNat m, .negSucc n => .ofNat (Nat.ldiff m n)
  | .negSucc m, .ofNat n => .ofNat (Nat.ldiff n m)
  | .negSucc m, .negSucc n => .negSucc (m ||| n)

/-- Python `a | b` (bitwise or) in infinite two's complement. -/
def pyOr : Int → Int → Int
  | .ofNat m, .ofNat n => .ofNat (m ||| n)
  | .ofNat m, .negSucc n => .negSucc (Nat.ldiff n m)
  | .negSucc m, .ofNat n => .negSucc (Nat.ldiff m n)
  | .negSucc m, .negSucc n => .negSucc (m &&& n)

/-! ## Module constants (`mapbox.py`, lines 12-23) -/

/-- `extents = 4096` -/
def extents : Int := 4096

/-- `cmd_bits = 3` -/
def cmd_bits : Nat := 3

/-- `tolerance = 0` (module default; the encoder reads this global). -/
def tolerance : Int := 0

/-- `CMD_MOVE_TO = 1` -/
def CMD_MOVE_TO : Int := 1

/-- `CMD_LINE_TO = 2` -/
def CMD_LINE_TO : Int := 2

/-- `CMD_SEG_END = 7` -/
def CMD_SEG_END : Int := 7

/-! ## Zigzag coding

The source inlines these expressions (`_geo_encode` lines 298-300 and
`_handle_skipped_last` lines 166-167, 172-173); they are named here. -/

/-- `(n << 1) ^ (n >> 31)` — the zigzag encoding used by `_geo_encode`. -/
def zigzag (n : Int) : Int := pyXor (pyShl n 1) (pyShr n 31)

/-- `(e >> 1) ^ (-(e & 1))` — the inverse used by `_handle_skipped_last`. -/
def unzigzag (e : Int) : Int := pyXor (pyShr e 1) (-(pyAnd e 1))

/-! ## Geometry stream: `_parseGeometry` and its helpers -/

/-- One entry of the `coordinates` list built by `_parseGeometry`:
a dict `{'x': …, 'y': …, 'cmd': …}`. -/
structure Coord where
  x : Int
  y : Int
  cmd : Int
  deriving DecidableEq, Repr

/-- `_get_point_obj(x, y, cmd)`: flips the y axis against the extent.
(`'y' : self.extents - y`). -/
def get_point_obj (ext : Int) (x y : Int) (cmd : Int) : Coord :=
  ⟨x, ext - y, cmd⟩

/-- Tail of `_get_arc_obj`'s while-loop for iterator ≥ 1: every vertex is
`CMD_LINE_TO` except the last one, which is `CMD_SEG_END` when the arc is a
polygon ring. -/
def arcTail (ext : Int) (isPolygon : Bool) : List (Int × Int) → List Coord
  | [] => []
  | [p] => [get_point_obj ext p.1 p.2 (if isPolygon then CMD_SEG_END else CMD_LINE_TO)]
  | p :: q :: rest => get_point_obj ext p.1 p.2 CMD_LINE_TO :: arcTail ext isPolygon (q :: rest)

/-- `_get_arc_obj(arc, type)`: iterator 0 is `CMD_MOVE_TO` (this branch wins
even for a one-point arc), the rest come from `arcTail`. -/
def get_arc_obj (ext : Int) (arc : List (Int × Int)) (isPolygon : Bool) : List Coord :=
  match arc with
  | [] => []
  | p :: rest => get_point_obj ext p.1 p.2 CMD_MOVE_TO :: arcTail ext isPolygon rest

/-- The shapely geometry fed to `_parseGeometry` (decoded from WKB by the
caller).  `other` stands for any geometry type outside the seven the source
dispatches on. -/
inductive Shape where
  | point (x y : Int)
  | multiPoint (pts : List (Int × Int))
  | lineString (coords : List (Int × Int))
  | multiLineString (lines : List (List (Int × Int)))
  | polygon (exterior : List (Int × Int)) (interiors : List (List (Int × Int)))
  | multiPolygon (polys : List (List (Int × Int) × List (List (Int × Int))))
  | geometryCollection
  | other (name : String)
  deriving DecidableEq, Repr

/-- `_parseGeometry(shape)`.  Note the `GeometryCollection` branch: the source
comments `# do nothing` and returns the empty coordinate list; only the final
`else` raises `NotImplementedError`. -/
def parseGeometry (ext : Int) : Shape → Except String (List Coord)
  | .geometryCollection => .ok []
  | .point x y => .ok [get_point_obj ext x y CMD_MOVE_TO]
  | .lineString cs => .ok (get_arc_obj ext cs false)
  | .polygon exterior interiors =>
      .ok (((exterior :: interiors).map (fun ring => get_arc_obj ext ring true)).flatten)
  | .multiPoint pts => .ok (pts.map (fun p => get_point_obj ext p.1 p.2 CMD_MOVE_TO))
  | .multiLineString lines =>
      .ok ((lines.map (fun arc => get_arc_obj ext arc false)).flatten)
  | .multiPolygon polys =>
      .ok ((polys.map (fun poly =>
        (((poly.1 :: poly.2).map (fun ring => get_arc_obj ext ring true)).flatten))).flatten)
  | .other name => .error ("NotImplementedError: Can't do " ++ name ++ " geometries")

/-- `_get_feature_type(shape)`: the three wire kinds (`tile.Point = 1`,
`tile.LineString = 2`, `tile.Polygon = 3`); the Python function falls off the
end and returns `None` for anything else (including `GeometryCollection`). -/
def get_feature_type : Shape → Option Int
  | .point _ _ => some 1
  | .multiPoint _ => some 1
  | .lineString _ => some 2
  | .multiLineString _ => some 2
  | .polygon _ _ => some 3
  | .multiPolygon _ => some 3
  | _ => none

/-! ## The delta/simplify encoder: `_geo_encode` -/

/-- `_encode_cmd_length(cmd, length) = (length << cmd_bits) | (cmd & ((1 << cmd_bits) - 1))`. -/
def encode_cmd_length (cmd length : Int) : Int :=
  pyOr (pyShl length cmd_bits) (pyAnd cmd (pyShl 1 cmd_bits - 1))

/-- `l[i] = v` for a non-negative index (both call sites guard the index:
`cmd_idx >= 0` and `skipped_index > 1`). -/
def listSet (l : List Int) (i : Int) (v : Int) : List Int := l.set i.toNat v

/-- `l[i]` read, non-negative in-range index at both call sites. -/
def listGet (l : List Int) (i : Int) : Int := l.getD i.toNat 0

/-- The local state of `_geo_encode`'s while loop (lines 239-252):
`f.geometry` plus the cursor and bookkeeping variables. -/
structure GeoState where
  geom : List Int
  x_ : Int
  y_ : Int
  cmd : Int
  cmd_idx : Int
  length : Int
  skipped_index : Int
  skipped_last : Bool
  cur_x : Int
  cur_y : Int
  prev_cmd : Int
  deriving DecidableEq, Repr

/-- Initial state (lines 239-252): cursor at origin, `cmd = cmd_idx = prev_cmd = -1`. -/
def initGeoState : GeoState :=
  { geom := [], x_ := 0, y_ := 0, cmd := -1, cmd_idx := -1, length := 0,
    skipped_index := -1, skipped_last := false, cur_x := 0, cur_y := 0, prev_cmd := -1 }

/-- `_handle_skipped_last(f, skipped_index, cur_x, cur_y, x_, y_)`: re-reads the
delta pair written just before the skip, un-zigzags it, and overwrites it with
the zigzag of `cur - (x_, y_) + last_delta`.  The source also assigns
`x_ = cur_x; y_ = cur_y`, but those are assignments to the function's *local*
parameters and are lost when it returns (Python passes ints by value), so they
do not appear here: the caller's cursor is unchanged. -/
def handle_skipped_last (geom : List Int) (skipped_index cur_x cur_y x_ y_ : Int) :
    List Int :=
  let last_x := listGet geom (skipped_index - 2)
  let last_y := listGet geom (skipped_index - 1)
  let last_dx := pyXor (pyShr last_x 1) (-(pyAnd last_x 1))
  let last_dy := pyXor (pyShr last_y 1) (-(pyAnd last_y 1))
  let dx := cur_x - x_ + last_dx
  let dy := cur_y - y_ + last_dy
  let geom := listSet geom (skipped_index - 2) (pyXor (pyShl dx 1) (pyShr dx 31))
  listSet geom (skipped_index - 1) (pyXor (pyShl dy 1) (pyShr dy 31))

/-- The back-patching of the pending command word
(`if (cmd_idx >= 0): f.geometry.__setitem__(cmd_idx, self._encode_cmd_length(cmd, length))`),
performed both on a run change (lines 263-264) and at stream end (lines 323-324). -/
def flushWord (s : GeoState) : List Int :=
  if s.cmd_idx ≥ 0 then listSet s.geom s.cmd_idx (encode_cmd_length s.cmd s.length)
  else s.geom

/-- The look-ahead of `_geo_encode` (lines 282-291): the next coordinate, when
it is a `CMD_LINE_TO`, forces emission if it forms an axis-aligned step of
magnitude ≥ tolerance. -/
def sharpTurnAhead (tol cur_x cur_y : Int) : Option Coord → Bool
  | some nc =>
      if nc.cmd = CMD_LINE_TO then
        let next_dx := |cur_x - nc.x|
        let next_dy := |cur_y - nc.y|
        decide ((next_dx = 0 ∧ next_dy ≥ tol) ∨ (next_dy = 0 ∧ next_dx ≥ tol))
      else false
  | none => false

/-- One iteration of `_geo_encode`'s while loop on coordinate `c`, with
`next?` the following coordinate (the loop reads `coordinates[it+1]` when
`it+2 <= len(coordinates)`).  Returns `none` for the `raise Exception`
branch on an unknown command. -/
def geoStep (tol : Int) (c : Coord) (next? : Option Coord) (s0 : GeoState) :
    Option GeoState :=
  -- lines 262-269: flush the previous run's command word, start a new run
  let s :=
    if c.cmd ≠ s0.cmd then
      let g := flushWord s0
      { s0 with cmd := c.cmd, length := 0, cmd_idx := (g.length : Int),
                geom := g ++ [0] }
    else s0
  if c.cmd = CMD_MOVE_TO ∨ c.cmd = CMD_LINE_TO then
    -- lines 272-273: retroactive patch of the pair at skipped_index
    let g1 :=
      if s.cmd = CMD_MOVE_TO ∧ s.skipped_last = true ∧ s.skipped_index > 1 then
        handle_skipped_last s.geom s.skipped_index s.cur_x s.cur_y s.x_ s.y_
      else s.geom
    -- lines 276-291
    let cur_x := c.x
    let cur_y := c.y
    let dx := cur_x - s.x_
    let dy := cur_y - s.y_
    let sharp := sharpTurnAhead tol cur_x cur_y next?
    -- line 297: emit or skip
    if s.length = 0 ∨ sharp = true ∨ |dx| ≥ tol ∨ |dy| ≥ tol then
      some { s with
        geom := g1 ++ [pyXor (pyShl dx 1) (pyShr dx 31), pyXor (pyShl dy 1) (pyShr dy 31)],
        x_ := cur_x, y_ := cur_y, skipped_last := false, length := s.length + 1,
        cur_x := cur_x, cur_y := cur_y, prev_cmd := s.cmd }
    else
      some { s with geom := g1, skipped_last := true,
                    skipped_index := (g1.length : Int),
                    cur_x := cur_x, cur_y := cur_y, prev_cmd := s.cmd }
  else if c.cmd = CMD_SEG_END then
    -- lines 308-310: ClosePath counts once per run (coalescing consecutive ones)
    some { s with
      length := if s.prev_cmd ≠ CMD_SEG_END then s.length + 1 else s.length,
      prev_cmd := s.cmd }
  else
    none  -- line 312: raise Exception("Unknown command type")

/-- The whole while loop of `_geo_encode`. -/
def geoLoop (tol : Int) : List Coord → GeoState → Option GeoState
  | [], s => some s
  | c :: rest, s =>
      match geoStep tol c rest.head? s with
      | some s1 => geoLoop tol rest s1
      | none => none

/-- `_geo_encode` on an already-built coordinate list: run the loop, apply the
final pending patch (lines 318-320), flush the last command word (lines
323-324), and return `f.geometry`. -/
def geo_encode (tol : Int) (coords : List Coord) : Option (List Int) :=
  (geoLoop tol coords initGeoState).map (fun s =>
    let g :=
      if s.skipped_last = true ∧ s.skipped_index > 1 then
        handle_skipped_last s.geom s.skipped_index s.cur_x s.cur_y s.x_ s.y_
      else s.geom
    flushWord { s with geom := g })

/-! ## Attribute interning: `_handle_attr` -/

/-- A Python property value as it arrives in the feature's property dict.
`other` stands for a value of any unsupported type (list, dict, …),
distinguished by identity. -/
inductive PyVal where
  | none
  | bool (b : Bool)
  | int (n : Int)
  | float (q : Rat)
  | str (s : String)
  | other (id : Nat)
  deriving DecidableEq, Repr

/-- Numeric view used by Python `==`: `True == 1`, `1 == 1.0` are all true
(bool is a subtype of int, and int/float compare by value). -/
def PyVal.toRat? : PyVal → Option Rat
  | .bool b => some (if b then 1 else 0)
  | .int n => some (n : Rat)
  | .float q => some q
  | _ => Option.none

/-- Python `==` on the property-value carrier, as used by
`v not in self.values` and `self.values.index(v)`. -/
def pyEq (a b : PyVal) : Bool :=
  match a.toRat?, b.toRat? with
  | some x, some y => x == y
  | _, _ =>
    match a, b with
    | .str s, .str t => s == t
    | .none, .none => true
    | .other i, .other j => i == j
    | _, _ => false

/-- One typed slot of `layer.values` (the protobuf `value` message): exactly
one of the branches of the isinstance chain in `_handle_attr`.  The source
byte-swaps the IEEE-754 double before storing it (`d_arr.byteswap()`); that
bit-level transformation is not modelled, so the constructor records the
pre-swap number and its name records the transformation. -/
inductive TypedValue where
  | bool_value (b : Bool)
  | string_value (s : String)
  | int_value (n : Int)
  | double_value_byteswapped (q : Rat)
  deriving DecidableEq, Repr

/-- The isinstance dispatch of `_handle_attr` (lines 142-156), in source
order: bool before str/unicode before int/long before float; anything else
falls through the commented-out `raise` and produces no wire value. -/
def wireValue : PyVal → Option TypedValue
  | .bool b => some (.bool_value b)
  | .str s => some (.string_value s)
  | .int n => some (.int_value n)
  | .float q => some (.double_value_byteswapped q)
  | _ => Option.none

/-- The mutable state `_handle_attr` works on: the interning lists
`self.keys` / `self.values`, the wire tables `layer.keys` / `layer.values`,
and the feature's `tags` list. -/
structure AttrState where
  keys : List String
  values : List PyVal
  layerKeys : List String
  layerValues : List TypedValue
  tags : List Nat
  deriving DecidableEq, Repr

/-- Empty attribute state (fresh layer build, fresh feature). -/
def initAttrState : AttrState := ⟨[], [], [], [], []⟩

/-- The body of `_handle_attr`'s `for k, v in props.items()` loop. -/
def handle_attr_step (st : AttrState) (kv : String × PyVal) : AttrState :=
  let k := kv.1
  let v := kv.2
  if v = PyVal.none then st  -- `if v is not None`
  else
    -- key interning (lines 136-139)
    let st1 :=
      if st.keys.contains k then st
      else { st with keys := st.keys ++ [k], layerKeys := st.layerKeys ++ [k] }
    let st2 := { st1 with tags := st1.tags ++ [st1.keys.findIdx (fun s => s == k)] }
    -- value interning (lines 140-156); membership and index use Python `==`
    let st3 :=
      if st2.values.any (fun w => pyEq w v) then st2
      else
        { st2 with
          values := st2.values ++ [v],
          layerValues := st2.layerValues ++
            (match wireValue v with
             | some tv => [tv]
             | Option.none => []) }
    { st3 with tags := st3.tags ++ [st3.values.findIdx (fun w => pyEq w v)] }

/-- `_handle_attr(layer, feature, props)`: fold over the property dict in
insertion order. -/
def handle_attr (props : List (String × PyVal)) (st : AttrState) : AttrState :=
  props.foldl handle_attr_step st

/-! ## Feature and layer assembly: `addFeature` / `addFeatures` -/

/-- An input feature tuple.  The callers pass `(wkb_geometry, props)` or
`(wkb_geometry, props, id)`; the optional third element models both shapes
(the geometry arrives already decoded from WKB here). -/
structure PyFeature where
  geom : Shape
  props : List (String × PyVal)
  uid? : Option PyVal
  deriving DecidableEq, Repr

/-- Python `len(feature)` for the two tuple shapes. -/
def PyFeature.pyLen (f : PyFeature) : Nat := if f.uid?.isSome then 3 else 2

/-- Python `dict.update(uid=v)`: replace in place if the key exists,
append otherwise. -/
def dictUpdate (props : List (String × PyVal)) (k : String) (v : PyVal) :
    List (String × PyVal) :=
  if props.any (fun p => p.1 == k) then
    props.map (fun p => if p.1 = k then (k, v) else p)
  else props ++ [(k, v)]

/-- One encoded feature as accumulated in `layer.features`: the wire fields
the source writes (`f.id`, `f.tags`, `f.type`, `f.geometry`).  `f.type` is
`Option` because `_get_feature_type` returns `None` for unclassified shapes. -/
structure WireFeature where
  id : Int
  tags : List Nat
  ftype : Option Int
  geometry : List Int
  deriving DecidableEq, Repr

/-- One layer under construction (`self.layer` plus the interning lists and
the feature counter scoped to one `addFeatures` call). -/
structure BuildState where
  name : String
  version : Int
  extent : Int
  layerKeys : List String
  layerValues : List TypedValue
  features : List WireFeature
  feature_count : Int
  keys : List String
  values : List PyVal
  deriving DecidableEq, Repr

/-- `addFeatures`'s per-layer initialisation (lines 91-97). -/
def initBuildState (layer_name : String) (ext : Int) : BuildState :=
  { name := layer_name, version := 2, extent := ext,
    layerKeys := [], layerValues := [], features := [],
    feature_count := 0, keys := [], values := [] }

def indexErrorMsg : String := "IndexError: tuple index out of range"

/-- `addFeature(feature)` (lines 102-117): bump the counter and set `f.id`;
inject the explicit identifier under the `uid` key — the guard tests
`len(feature) >= 2` but reads `feature[2]`, so a 2-tuple raises `IndexError`;
intern the properties; classify and encode the geometry. -/
def addFeature (st : BuildState) (feature : PyFeature) : Except String BuildState := do
  let feature_count := st.feature_count + 1
  let props ←
    if feature.pyLen ≥ 2 then
      match feature.uid? with
      | some u => pure (dictUpdate feature.props "uid" u)
      | Option.none => throw indexErrorMsg  -- feature[2] on a 2-tuple
    else pure feature.props
  let a := handle_attr props
    { keys := st.keys, values := st.values,
      layerKeys := st.layerKeys, layerValues := st.layerValues, tags := [] }
  let shape := feature.geom
  let ftype := get_feature_type shape
  let coords ← parseGeometry st.extent shape
  let geomWords ←
    match geo_encode tolerance coords with
    | some g => pure g
    | Option.none => throw "Exception: Unknown command type"
  pure { st with
    layerKeys := a.layerKeys, layerValues := a.layerValues,
    features := st.features ++ [⟨feature_count, a.tags, ftype, geomWords⟩],
    feature_count := feature_count, keys := a.keys, values := a.values }

/-- `addFeatures(features, coord, layer_name)`: fresh layer, fresh interning
lists, counter reset to 0, then one `addFeature` per input feature. -/
def addFeatures (features : List PyFeature) (layer_name : String) :
    Except String BuildState :=
  features.foldlM addFeature (initBuildState layer_name extents)

/-! ## Reference decoder (specification side)

`decodePositions` replays an encoded geometry word stream: it unpacks each
command word (opcode in the low `cmd_bits` bits, run length above them),
un-zigzags each delta pair of a MoveTo/LineTo run and accumulates the deltas
from the origin; ClosePath words carry no pairs.  This is the "cumulative
delta accumulation" the spec describes, used to state fidelity claims. -/

structure DecState where
  pending : Nat
  half : Option Int
  x : Int
  y : Int
  acc : List (Int × Int)
  err : Bool
  deriving DecidableEq, Repr

def initDecState : DecState := ⟨0, Option.none, 0, 0, [], false⟩

def decStep (s : DecState) (w : Int) : DecState :=
  if s.err then s
  else
    match s.half with
    | some dx =>
        let x := s.x + dx
        let y := s.y + unzigzag w
        { s with half := Option.none, x := x, y := y,
                 acc := s.acc ++ [(x, y)], pending := s.pending - 1 }
    | Option.none =>
        if s.pending ≠ 0 then { s with half := some (unzigzag w) }
        else
          let cmd := w.emod 8
          let len := (w.ediv 8).toNat
          if cmd = 7 then s
          else if cmd = 1 ∨ cmd = 2 then { s with pending := len }
          else { s with err := true }

/-- Decode a geometry word stream into the absolute positions of its
MoveTo/LineTo vertices; `none` if the stream is malformed. -/
def decodePositions (ws : List Int) : Option (List (Int × Int)) :=
  let s := ws.foldl decStep initDecState
  if s.err ∨ s.pending ≠ 0 ∨ s.half.isSome then Option.none else some s.acc

/-- The tile-local positions of the MoveTo/LineTo entries of a coordinate
stream (what a faithful encoder must reproduce). -/
def mvLinePos (cs : List Coord) : List (Int × Int) :=
  (cs.filter (fun c => c.cmd = CMD_MOVE_TO ∨ c.cmd = CMD_LINE_TO)).map
    (fun c => (c.x, c.y))

/-- Zigzag delta words between consecutive positions of a list. -/
def deltaWords : List (Int × Int) → List Int
  | (a, b) :: (c, d) :: rest =>
      zigzag (c - a) :: zigzag (d - b) :: deltaWords ((c, d) :: rest)
  | _ => []

/-- Tile-local boundedness: coordinates small enough that consecutive deltas
stay inside the signed 32-bit zigzag range. -/
def BoundedPos (p : Int × Int) : Prop := |p.1| < 2 ^ 30 ∧ |p.2| < 2 ^ 30

instance : DecidablePred BoundedPos := fun p => by
  unfold BoundedPos; infer_instance

/-! ## Arithmetic lemmas about the Python bit operations -/


/-- Geometry kinds `_parseGeometry` recognises (everything but the
`NotImplementedError` fallthrough). -/
def Shape.recognized : Shape → Bool
  | .other _ => false
  | _ => true

/-- The loop invariant tying `_geo_encode`'s state at tolerance 0 to the
decoded meaning of the words emitted so far: the geometry splits into a fully
flushed prefix `pre`, the pending placeholder, and the current run's delta
pairs; decoding `pre` lands the cursor at `(cx, cy)` with accumulated
positions `A`, and the current run has emitted the positions `runPs`. -/
structure GeoInv (done : List Coord) (s : GeoState) (pre : List Int)
    (runPs : List (Int × Int)) (cx cy : Int) (A : List (Int × Int)) : Prop where
  geom_eq : s.geom = pre ++ 0 :: deltaWords ((cx, cy) :: runPs)
  idx_eq : s.cmd_idx = (pre.length : Int)
  skip : s.skipped_last = false
  prev : s.prev_cmd = s.cmd
  dec : pre.foldl decStep initDecState = ⟨0, Option.none, cx, cy, A, false⟩
  pos : A ++ runPs = mvLinePos done
  cursor : (s.x_, s.y_) = runPs.getLastD (cx, cy)
  run12 : s.cmd = 1 ∨ s.cmd = 2 → s.length = (runPs.length : Int) ∧ runPs ≠ []
  run7 : s.cmd = 7 → runPs = [] ∧ s.length = 1
  cmdv : s.cmd = 1 ∨ s.cmd = 2 ∨ s.cmd = 7
  bnd0 : BoundedPos (cx, cy)
  bnds : ∀ p ∈ runPs, BoundedPos p

/-- Existentially packaged invariant. -/
def InvEx (done : List Coord) (s : GeoState) : Prop :=
  ∃ pre runPs cx cy A, GeoInv done s pre runPs cx cy A

/-- The three geometry kinds named by the tolerance-0 fidelity claim. -/
def Shape.isPLP : Shape → Bool
  | .point _ _ => true
  | .lineString _ => true
  | .polygon _ _ => true
  | _ => false

/-- The state after a run of LineTo vertices at tolerance 0 (each emits its
zigzag delta pair and advances the cursor). -/
def lineRunState : List (Int × Int) → GeoState → GeoState
  | [], s => s
  | (a, b) :: rest, s =>
      lineRunState rest { s with
        geom := s.geom ++ [zigzag (a - s.x_), zigzag (b - s.y_)],
        x_ := a, y_ := b, skipped_last := false, length := s.length + 1,
        cur_x := a, cur_y := b, prev_cmd := s.cmd }
theorem pyShl_one (n : Int) : pyShl n 1 = 2 * n := by
  unfold pyShl; push_cast; ring

theorem pyShr_ofNat (m : Nat) (k : Nat) : pyShr (.ofNat m) k = .ofNat (m >>> k) := rfl

theorem pyShr_negSucc (m : Nat) (k : Nat) : pyShr (.negSucc m) k = .negSucc (m >>> k) := rfl

theorem shiftRight_eq_zero {m : Nat} (h : m < 2 ^ 31) : m >>> 31 = 0 := by
  rw [Nat.shiftRight_eq_div_pow]
  exact Nat.div_eq_of_lt h

/-- Core round-trip fact: the inverse transform undoes the zigzag transform
on the signed 32-bit range. -/
theorem zigzag_roundtrip (n : Int) (h1 : -(2 ^ 31) ≤ n) (h2 : n < 2 ^ 31) :
    unzigzag (zigzag n) = n := by
  unfold zigzag unzigzag
  match n with
  | .ofNat m =>
    have hm : m < 2 ^ 31 := by
      have : (Int.ofNat m) < (2 : Int) ^ 31 := h2
      rw [Int.ofNat_eq_natCast] at this
      exact_mod_cast this
    have hz : pyShl (Int.ofNat m) 1 = Int.ofNat (2 * m) := by
      rw [pyShl_one]; simp only [Int.ofNat_eq_natCast]; push_cast; ring
    rw [hz, pyShr_ofNat, shiftRight_eq_zero hm]
    have hx : pyXor (Int.ofNat (2 * m)) (Int.ofNat 0) = Int.ofNat (2 * m) := by
      simp [pyXor]
    rw [hx, pyShr_ofNat]
    have h2m : (2 * m) >>> 1 = m := by
      rw [Nat.shiftRight_eq_div_pow]; omega
    have hand : pyAnd (Int.ofNat (2 * m)) 1 = Int.ofNat 0 := by
      show pyAnd (Int.ofNat (2 * m)) (Int.ofNat 1) = Int.ofNat 0
      simp only [pyAnd, Int.ofNat.injEq]
      rw [Nat.and_one_is_mod]; omega
    rw [h2m, hand]
    show pyXor (Int.ofNat m) (Int.ofNat 0) = Int.ofNat m
    simp [pyXor]
  | .negSucc m =>
    have hm : m < 2 ^ 31 := by
      rw [Int.negSucc_eq] at h1
      have : (m : Int) + 1 ≤ 2 ^ 31 := by linarith
      exact_mod_cast this
    have hz : pyShl (Int.negSucc m) 1 = Int.negSucc (2 * m + 1) := by
      rw [pyShl_one, Int.negSucc_eq, Int.negSucc_eq]; push_cast; ring
    rw [hz, pyShr_negSucc, shiftRight_eq_zero hm]
    have hx : pyXor (Int.negSucc (2 * m + 1)) (Int.negSucc 0) = Int.ofNat (2 * m + 1) := by
      simp [pyXor]
    rw [hx, pyShr_ofNat]
    have h2m : (2 * m + 1) >>> 1 = m := by
      rw [Nat.shiftRight_eq_div_pow]; omega
    have hand : pyAnd (Int.ofNat (2 * m + 1)) 1 = Int.ofNat 1 := by
      show pyAnd (Int.ofNat (2 * m + 1)) (Int.ofNat 1) = Int.ofNat 1
      simp only [pyAnd, Int.ofNat.injEq]
      rw [Nat.and_one_is_mod]; omega
    rw [h2m, hand]
    show pyXor (Int.ofNat m) (Int.negSucc 0) = Int.negSucc m
    simp [pyXor]

/-- Claim C8: for every signed 32-bit integer `n`, the inverse transform
undoes the zigzag transform: `unzigzag (zigzag n) = n`. -/
theorem unzigzag_zigzag (n : Int) (h1 : -(2 ^ 31) ≤ n) (h2 : n < 2 ^ 31) :
    unzigzag (zigzag n) = n := zigzag_roundtrip n h1 h2

/-- Witness for `unzigzag_zigzag` at `n = -5`. -/
theorem unzigzag_zigzag_witness :
    -(2 ^ 31) ≤ (-5 : Int) ∧ (-5 : Int) < 2 ^ 31 ∧ unzigzag (zigzag (-5)) = -5 :=
  ⟨by decide, by decide, unzigzag_zigzag (-5) (by decide) (by decide)⟩

theorem mul8_lor (m c : Nat) (h : c < 8) : (m * 8) ||| c = m * 8 + c := by
  apply Nat.eq_of_testBit_eq
  intro i
  rw [Nat.testBit_lor]
  rcases Nat.lt_or_ge i 3 with hi | hi
  · interval_cases i <;>
      (simp only [Nat.testBit_to_div_mod]
       rw [← Bool.decide_or]
       rw [decide_eq_decide]
       omega)
  · obtain ⟨j, rfl⟩ : ∃ j, i = 3 + j := ⟨i - 3, by omega⟩
    have h8 : (2 : Nat) ^ 3 ≤ 2 ^ (3 + j) := Nat.pow_le_pow_right (by omega) (by omega)
    have hc : c.testBit (3 + j) = false :=
      Nat.testBit_eq_false_of_lt (by omega)
    have e1 : (m * 8).testBit (3 + j) = m.testBit j := by
      rw [← Nat.testBit_shiftRight]
      congr 1
      rw [Nat.shiftRight_eq_div_pow]
      omega
    have e2 : (m * 8 + c).testBit (3 + j) = m.testBit j := by
      rw [← Nat.testBit_shiftRight]
      congr 1
      rw [Nat.shiftRight_eq_div_pow]
      omega
    rw [hc, e1, e2, Bool.or_false]

theorem encode_cmd_length_eq (c : Int) (hc : c = 1 ∨ c = 2 ∨ c = 7) (L : Nat) :
    encode_cmd_length c (L : Int) = 8 * L + c := by
  have hmask : pyShl 1 cmd_bits - 1 = (7 : Int) := by decide
  have hand : pyAnd c 7 = c := by
    rcases hc with rfl | rfl | rfl <;> decide
  have hshl : pyShl (L : Int) cmd_bits = Int.ofNat (L * 8) := by
    unfold pyShl cmd_bits
    simp only [Int.ofNat_eq_natCast]
    push_cast
    ring
  obtain ⟨c', rfl, hc'⟩ : ∃ c' : Nat, c = Int.ofNat c' ∧ c' < 8 := by
    rcases hc with rfl | rfl | rfl
    · exact ⟨1, rfl, by omega⟩
    · exact ⟨2, rfl, by omega⟩
    · exact ⟨7, rfl, by omega⟩
  unfold encode_cmd_length
  rw [hmask, hand, hshl]
  show Int.ofNat ((L * 8) ||| c') = 8 * (L : Int) + Int.ofNat c'
  rw [mul8_lor L c' hc']
  simp only [Int.ofNat_eq_natCast]
  push_cast
  ring

/-! ## Claims settled by concrete evaluation -/

/-- Claim C1, counterexample: interning the boolean `true` and the integer `1`
into one layer produces a single value-table entry, not two — membership in
`self.values` is Python `==`, and `True == 1`. -/
theorem handle_attr_bool_int_conflated :
    (handle_attr [("a", PyVal.bool true), ("b", PyVal.int 1)] initAttrState).layerValues.length
      ≠ 2 := by decide

/-- Claim C1, amended: the value table keeps one entry per Python-equality
class, so `true` and `1` share the single entry `bool_value true` (tagged by
the first-seen type), and both properties' value indices refer to that entry
(tags `[0, 0, 1, 0]`), regardless of the integer property's own type. -/
theorem handle_attr_bool_int_single_entry :
    handle_attr [("a", PyVal.bool true), ("b", PyVal.int 1)] initAttrState =
      { keys := ["a", "b"], values := [PyVal.bool true],
        layerKeys := ["a", "b"], layerValues := [TypedValue.bool_value true],
        tags := [0, 0, 1, 0] } := by decide

/-- Claim C2, counterexample: encoding a `GeometryCollection` feature does not
fail, and the feature *is* appended to the layer (with empty geometry). -/
theorem geometryCollection_feature_added :
    ((addFeature (initBuildState "test" extents)
        ⟨Shape.geometryCollection, [], some (PyVal.int 42)⟩).toOption.map
      (fun st => (st.features.length, st.features.map (fun f => (f.ftype, f.geometry)))))
      = some (1, [(Option.none, [])]) := by decide

/-- Claim C2, amended: a `GeometryCollection` is silently accepted:
`_parseGeometry` returns the empty coordinate list (its branch is
`# do nothing`), `_get_feature_type` returns no type, and the feature is
appended to the layer with an empty geometry word stream; no
`UnsupportedGeometry`-style error exists on this path. -/
theorem geometryCollection_silently_accepted (st : BuildState)
    (props : List (String × PyVal)) (u : PyVal) :
    ∃ st2, addFeature st ⟨Shape.geometryCollection, props, some u⟩ = Except.ok st2 ∧
      st2.features.length = st.features.length + 1 ∧
      st2.features.getLast?.map (fun f => (f.ftype, f.geometry)) =
        some (Option.none, []) := by
  refine ⟨_, rfl, ?_, ?_⟩
  · simp
  · rw [List.getLast?_concat]
    rfl

/-- Claim C3: evaluation of the encoder at the failing input.  With
tolerance 2, the stream MoveTo (0,0), LineTo (10,0), LineTo (11,0) (skipped),
MoveTo (20,0) is patched so that the pair at `skipped_index` decodes to the
skipped vertex (11,0) — but the cursor `x_, y_` is *not* advanced (the
assignments inside `_handle_skipped_last` are lost), so the final vertex
decodes to (21,0) although the encoder consumed (20,0): drift of +1.  The
end-of-stream patch (second conjunct pair) is correct: the stream ending at
the skipped vertex decodes to (11,0) exactly. -/
theorem skipped_patch_drifts :
    geo_encode 2 [⟨0, 0, 1⟩, ⟨10, 0, 2⟩, ⟨11, 0, 2⟩, ⟨20, 0, 1⟩]
        = some [9, 0, 0, 10, 22, 0, 9, 20, 0] ∧
      decodePositions [9, 0, 0, 10, 22, 0, 9, 20, 0]
        = some [(0, 0), (11, 0), (21, 0)] ∧
      geo_encode 2 [⟨0, 0, 1⟩, ⟨10, 0, 2⟩, ⟨11, 0, 2⟩]
        = some [9, 0, 0, 10, 22, 0] ∧
      decodePositions [9, 0, 0, 10, 22, 0] = some [(0, 0), (11, 0)] := by
  refine ⟨by decide, by decide, by decide, by decide⟩

/-- Claim C5, counterexample: the 2-point LineString (0,0)-(5,0) does *not*
encode to `[9, 0, 0, 18, 10, 0]` — the y flip maps source y = 0 to wire
y = 4096 (zigzag 8192), and a length-1 LineTo command word is
`(1 << 3) | 2 = 10`, not 18. -/
theorem lineString_words_claimed_value_wrong :
    parseGeometry extents (.lineString [(0, 0), (5, 0)]) =
        Except.ok [⟨0, 4096, 1⟩, ⟨5, 4096, 2⟩] ∧
      geo_encode tolerance [⟨0, 4096, 1⟩, ⟨5, 4096, 2⟩] ≠ some [9, 0, 0, 18, 10, 0] :=
  ⟨rfl, by decide⟩

/-- Claim C5, amended: the 2-point LineString from (0,0) to (5,0) at extent
4096 and tolerance 0 produces exactly `[9, 0, 8192, 10, 10, 0]`: a MoveTo
command word of length 1, its zigzag pair (0, 8192) — the y flip sends source
y = 0 to wire y = 4096 — then a LineTo command word `10` of length 1 with
zigzag deltas 10 and 0. -/
theorem lineString_words_actual :
    parseGeometry extents (.lineString [(0, 0), (5, 0)]) =
        Except.ok [⟨0, 4096, 1⟩, ⟨5, 4096, 2⟩] ∧
      geo_encode tolerance [⟨0, 4096, 1⟩, ⟨5, 4096, 2⟩] = some [9, 0, 8192, 10, 10, 0] :=
  ⟨rfl, by decide⟩

/-- Claim C6, counterexample: interning a property value of unsupported type
does not fail, and both a key index and a value index *are* emitted into the
feature's tag list (`[0, 0]`), while no wire value entry is added — the value
index dangles past the end of the layer's value table. -/
theorem unsupported_value_indices_emitted :
    (handle_attr [("k", PyVal.other 0)] initAttrState).tags = [0, 0] ∧
      (handle_attr [("k", PyVal.other 0)] initAttrState).layerValues = [] := by
  refine ⟨by decide, by decide⟩

/-- Claim C6, amended: `_handle_attr` never raises for an unsupported value
type (the `raise` is commented out in the source): the value joins the
membership list `self.values` without any `layer.values` entry, and the key
index and value index are still appended to the tag list, leaving the value
index dangling. -/
theorem unsupported_value_silently_dropped (i : Nat) (k : String) :
    handle_attr [(k, PyVal.other i)] initAttrState =
      { keys := [k], values := [PyVal.other i], layerKeys := [k],
        layerValues := [], tags := [0, 0] } := by
  have h2 : pyEq (PyVal.other i) (PyVal.other i) = true := by
    unfold pyEq PyVal.toRat?
    simp
  unfold handle_attr handle_attr_step
  simp [initAttrState, wireValue, h2, List.findIdx_cons]

/-- Claim C9, counterexample: a layer build over one feature carrying no
explicit identifier does not produce wire id 1 — it fails with the
`feature[2]` IndexError, because the injection guard tests `len(feature) >= 2`
and a 2-tuple passes the guard. -/
theorem addFeatures_no_uid_errors :
    addFeatures [⟨Shape.point 1 2, [], Option.none⟩] "test" =
      Except.error indexErrorMsg := rfl

/-- Claim C10: every 2-element feature tuple (geometry, property mapping) is
rejected by `addFeature` with the out-of-range IndexError raised by
`feature[2]`, before any property interning or geometry encoding happens. -/
theorem two_element_feature_index_error (st : BuildState) (g : Shape)
    (props : List (String × PyVal)) :
    addFeature st ⟨g, props, Option.none⟩ = Except.error indexErrorMsg := rfl

/-! ## Step characterisation of `_geo_encode`'s loop -/

/-- A continuing MoveTo/LineTo run at tolerance 0 always emits the zigzag
delta pair and advances the cursor. -/
theorem geoStep_mvline_cont (c : Coord) (next? : Option Coord) (s : GeoState)
    (hc : c.cmd = 1 ∨ c.cmd = 2) (hsame : c.cmd = s.cmd) (hsk : s.skipped_last = false) :
    geoStep 0 c next? s = some { s with
      geom := s.geom ++ [zigzag (c.x - s.x_), zigzag (c.y - s.y_)],
      x_ := c.x, y_ := c.y, skipped_last := false, length := s.length + 1,
      cur_x := c.x, cur_y := c.y, prev_cmd := s.cmd } := by
  have h1 : ¬(c.cmd ≠ s.cmd) := by simp [hsame]
  have hcor : c.cmd = CMD_MOVE_TO ∨ c.cmd = CMD_LINE_TO := by
    unfold CMD_MOVE_TO CMD_LINE_TO
    exact hc
  have hpatch : ¬(s.cmd = CMD_MOVE_TO ∧ s.skipped_last = true ∧ s.skipped_index > 1) := by
    simp [hsk]
  simp only [geoStep, if_neg h1, if_pos hcor, if_neg hpatch]
  rw [if_pos (Or.inr (Or.inr (Or.inl (abs_nonneg _))))]
  simp [zigzag]

/-- Starting a new MoveTo/LineTo run at tolerance 0: flush the previous
command word, append the placeholder and the first delta pair. -/
theorem geoStep_mvline_new (c : Coord) (next? : Option Coord) (s : GeoState)
    (hc : c.cmd = 1 ∨ c.cmd = 2) (hne : c.cmd ≠ s.cmd) (hsk : s.skipped_last = false) :
    geoStep 0 c next? s = some { s with
      cmd := c.cmd, cmd_idx := ((flushWord s).length : Int),
      geom := flushWord s ++ [0, zigzag (c.x - s.x_), zigzag (c.y - s.y_)],
      length := 1, x_ := c.x, y_ := c.y, skipped_last := false,
      cur_x := c.x, cur_y := c.y, prev_cmd := c.cmd } := by
  have hcor : c.cmd = CMD_MOVE_TO ∨ c.cmd = CMD_LINE_TO := by
    unfold CMD_MOVE_TO CMD_LINE_TO
    exact hc
  simp only [geoStep, if_pos hne, if_pos hcor]
  rw [if_neg (by simp [hsk] : ¬(c.cmd = CMD_MOVE_TO ∧ s.skipped_last = true ∧
        s.skipped_index > 1))]
  simp [zigzag]

/-- A ClosePath entry continuing a ClosePath run changes nothing (its length
was already counted; `prev_cmd` is rewritten to the same value). -/
theorem geoStep_seg_same (tol : Int) (c : Coord) (next? : Option Coord) (s : GeoState)
    (hc : c.cmd = 7) (hsame : c.cmd = s.cmd) (hprev : s.prev_cmd = s.cmd) :
    geoStep tol c next? s = some s := by
  have h1 : ¬(c.cmd ≠ s.cmd) := by simp [hsame]
  have h2 : ¬(c.cmd = CMD_MOVE_TO ∨ c.cmd = CMD_LINE_TO) := by
    unfold CMD_MOVE_TO CMD_LINE_TO
    omega
  have h3 : c.cmd = CMD_SEG_END := hc
  simp only [geoStep, if_neg h1, if_neg h2, if_pos h3]
  have h4 : ¬(s.prev_cmd ≠ CMD_SEG_END) := by
    unfold CMD_SEG_END
    omega
  rw [if_neg h4]
  cases s
  simp_all

/-- A ClosePath entry opening a new run: flush the previous command word,
append the placeholder, count length 1 (the previous command was not
ClosePath). -/
theorem geoStep_seg_new (tol : Int) (c : Coord) (next? : Option Coord) (s : GeoState)
    (hc : c.cmd = 7) (hne : c.cmd ≠ s.cmd) (hprev : s.prev_cmd = s.cmd) :
    geoStep tol c next? s = some { s with
      cmd := 7, cmd_idx := ((flushWord s).length : Int),
      geom := flushWord s ++ [0], length := 1, prev_cmd := 7 } := by
  have h2 : ¬(c.cmd = CMD_MOVE_TO ∨ c.cmd = CMD_LINE_TO) := by
    unfold CMD_MOVE_TO CMD_LINE_TO
    omega
  have h3 : c.cmd = CMD_SEG_END := hc
  simp only [geoStep, if_pos hne, if_neg h2, if_pos h3]
  have h4 : s.prev_cmd ≠ CMD_SEG_END := by
    unfold CMD_SEG_END
    omega
  rw [if_pos h4]
  simp [hc]

/-- `geoStep` succeeds exactly on the three known commands. -/
theorem geoStep_isSome (tol : Int) (c : Coord) (next? : Option Coord) (s : GeoState)
    (h : c.cmd = 1 ∨ c.cmd = 2 ∨ c.cmd = 7) :
    (geoStep tol c next? s).isSome = true := by
  by_cases hm : c.cmd = CMD_MOVE_TO ∨ c.cmd = CMD_LINE_TO
  · simp only [geoStep, if_pos hm]
    split <;> split <;> rfl
  · have hs : c.cmd = CMD_SEG_END := by
      unfold CMD_MOVE_TO CMD_LINE_TO at hm
      unfold CMD_SEG_END
      omega
    simp only [geoStep, if_neg hm, if_pos hs]
    rfl

/-- The loop succeeds on any stream of known commands. -/
theorem geoLoop_isSome (tol : Int) :
    ∀ (cs : List Coord) (s : GeoState),
      (∀ c ∈ cs, c.cmd = 1 ∨ c.cmd = 2 ∨ c.cmd = 7) →
      ∃ s1, geoLoop tol cs s = some s1
  | [], s, _ => ⟨s, rfl⟩
  | c :: rest, s, h => by
    have hc := h c (by simp)
    obtain ⟨s1, hs1⟩ := Option.isSome_iff_exists.mp (geoStep_isSome tol c rest.head? s hc)
    obtain ⟨s2, hs2⟩ := geoLoop_isSome tol rest s1 (fun d hd => h d (by simp [hd]))
    exact ⟨s2, by simp only [geoLoop, hs1, hs2]⟩

/-- `_geo_encode` succeeds on any stream of known commands. -/
theorem geo_encode_isSome (tol : Int) (cs : List Coord)
    (h : ∀ c ∈ cs, c.cmd = 1 ∨ c.cmd = 2 ∨ c.cmd = 7) :
    ∃ ws, geo_encode tol cs = some ws := by
  obtain ⟨s1, hs1⟩ := geoLoop_isSome tol cs initGeoState h
  have hsome : (geo_encode tol cs).isSome = true := by
    unfold geo_encode
    rw [hs1]
    rfl
  exact Option.isSome_iff_exists.mp hsome

/-! ## The ring streams only carry the three known commands -/

theorem arcTail_cmds (ext : Int) (poly : Bool) :
    ∀ (l : List (Int × Int)) (c : Coord), c ∈ arcTail ext poly l →
      c.cmd = 1 ∨ c.cmd = 2 ∨ c.cmd = 7
  | [], c, h => by simp [arcTail] at h
  | [p], c, h => by
      simp only [arcTail, List.mem_singleton] at h
      subst h
      cases poly <;> simp [get_point_obj, CMD_SEG_END, CMD_LINE_TO]
  | p :: q :: rest, c, h => by
      simp only [arcTail, List.mem_cons] at h
      rcases h with h | h
      · subst h
        simp [get_point_obj, CMD_LINE_TO]
      · exact arcTail_cmds ext poly (q :: rest) c h

theorem get_arc_obj_cmds (ext : Int) (poly : Bool) (l : List (Int × Int)) (c : Coord)
    (h : c ∈ get_arc_obj ext l poly) : c.cmd = 1 ∨ c.cmd = 2 ∨ c.cmd = 7 := by
  match l with
  | [] => simp [get_arc_obj] at h
  | p :: rest =>
    simp only [get_arc_obj, List.mem_cons] at h
    rcases h with h | h
    · subst h
      simp [get_point_obj, CMD_MOVE_TO]
    · exact arcTail_cmds ext poly rest c h

theorem parseGeometry_cmds (ext : Int) (shape : Shape) (cs : List Coord)
    (hok : parseGeometry ext shape = .ok cs) :
    ∀ c ∈ cs, c.cmd = 1 ∨ c.cmd = 2 ∨ c.cmd = 7 := by
  intro c hc
  cases shape with
  | geometryCollection =>
      cases hok
      simp at hc
  | point x y =>
      cases hok
      simp only [List.mem_singleton] at hc
      subst hc
      simp [get_point_obj, CMD_MOVE_TO]
  | lineString l =>
      cases hok
      exact get_arc_obj_cmds ext false l c hc
  | polygon exterior interiors =>
      cases hok
      obtain ⟨l, hl, hcl⟩ := List.mem_flatten.mp hc
      obtain ⟨ring, _, rfl⟩ := List.mem_map.mp hl
      exact get_arc_obj_cmds ext true ring c hcl
  | multiPoint pts =>
      cases hok
      obtain ⟨p, _, rfl⟩ := List.mem_map.mp hc
      simp [get_point_obj, CMD_MOVE_TO]
  | multiLineString lines =>
      cases hok
      obtain ⟨l, hl, hcl⟩ := List.mem_flatten.mp hc
      obtain ⟨arc, _, rfl⟩ := List.mem_map.mp hl
      exact get_arc_obj_cmds ext false arc c hcl
  | multiPolygon polys =>
      cases hok
      obtain ⟨l, hl, hcl⟩ := List.mem_flatten.mp hc
      obtain ⟨poly, _, rfl⟩ := List.mem_map.mp hl
      obtain ⟨l2, hl2, hcl2⟩ := List.mem_flatten.mp hcl
      obtain ⟨ring, _, rfl⟩ := List.mem_map.mp hl2
      exact get_arc_obj_cmds ext true ring c hcl2
  | other name => cases hok

theorem parseGeometry_ok_of_recognized (ext : Int) (shape : Shape)
    (h : shape.recognized = true) : ∃ cs, parseGeometry ext shape = .ok cs := by
  cases shape <;> first
    | exact ⟨_, rfl⟩
    | simp [Shape.recognized] at h

/-! ## Feature ids: Claim C9 -/

theorem ok_bind {α β ε : Type} (a : α) (g : α → Except ε β) :
    (Except.ok a >>= g) = g a := rfl

theorem addFeature_ok (st : BuildState) (f : PyFeature) (u : PyVal)
    (hu : f.uid? = some u) (hg : f.geom.recognized = true) :
    ∃ st2, addFeature st f = Except.ok st2 ∧
      st2.feature_count = st.feature_count + 1 ∧
      st2.features.map (fun w => w.id) =
        st.features.map (fun w => w.id) ++ [st.feature_count + 1] := by
  obtain ⟨cs, hcs⟩ := parseGeometry_ok_of_recognized st.extent f.geom hg
  obtain ⟨ws, hws⟩ := geo_encode_isSome tolerance cs (parseGeometry_cmds st.extent f.geom cs hcs)
  refine ⟨{ st with
      layerKeys := (handle_attr (dictUpdate f.props "uid" u)
        { keys := st.keys, values := st.values, layerKeys := st.layerKeys,
          layerValues := st.layerValues, tags := [] }).layerKeys,
      layerValues := (handle_attr (dictUpdate f.props "uid" u)
        { keys := st.keys, values := st.values, layerKeys := st.layerKeys,
          layerValues := st.layerValues, tags := [] }).layerValues,
      features := st.features ++ [⟨st.feature_count + 1,
        (handle_attr (dictUpdate f.props "uid" u)
          { keys := st.keys, values := st.values, layerKeys := st.layerKeys,
            layerValues := st.layerValues, tags := [] }).tags,
        get_feature_type f.geom, ws⟩],
      feature_count := st.feature_count + 1,
      keys := (handle_attr (dictUpdate f.props "uid" u)
        { keys := st.keys, values := st.values, layerKeys := st.layerKeys,
          layerValues := st.layerValues, tags := [] }).keys,
      values := (handle_attr (dictUpdate f.props "uid" u)
        { keys := st.keys, values := st.values, layerKeys := st.layerKeys,
          layerValues := st.layerValues, tags := [] }).values }, ?_, rfl, by simp⟩
  simp only [addFeature, hu, hcs, PyFeature.pyLen, Option.isSome_some, if_true]
  rw [if_pos (by omega : (3 : Nat) ≥ 2)]
  simp only [pure_bind, ok_bind]
  rw [hws]
  rfl

theorem foldlM_addFeature_ids :
    ∀ (fs : List PyFeature) (st : BuildState),
      (∀ f ∈ fs, f.uid?.isSome = true) →
      (∀ f ∈ fs, f.geom.recognized = true) →
      ∃ st2, List.foldlM addFeature st fs = Except.ok st2 ∧
        st2.features.map (fun w => w.id) =
          st.features.map (fun w => w.id) ++
            (List.range fs.length).map (fun (i : Nat) => st.feature_count + (i : Int) + 1)
  | [], st, _, _ => ⟨st, rfl, by simp⟩
  | f :: rest, st, h1, h2 => by
      obtain ⟨u, hu⟩ := Option.isSome_iff_exists.mp (h1 f (by simp))
      obtain ⟨st1, hok, hcount, hids⟩ := addFeature_ok st f u hu (h2 f (by simp))
      obtain ⟨st2, hok2, hids2⟩ := foldlM_addFeature_ids rest st1
        (fun g hg => h1 g (by simp [hg])) (fun g hg => h2 g (by simp [hg]))
      refine ⟨st2, ?_, ?_⟩
      · rw [List.foldlM_cons, hok]
        show List.foldlM addFeature st1 rest = Except.ok st2
        exact hok2
      · rw [hids2, hids, hcount, List.length_cons, List.append_assoc]
        congr 1
        rw [List.range_succ_eq_map, List.map_cons, List.map_map, List.singleton_append]
        congr 1
        · simp
        · apply List.map_congr_left
          intro a _
          simp only [Function.comp_apply]
          push_cast
          ring

/-- Claim C9, amended: in a layer build over features that each carry an
explicit identifier, the wire id fields are the sequential counter values
1..N in input order (the counter restarts at 1 for each layer build); the
explicit identifier only reaches the `uid` property (see `addFeature`), never
the wire id. -/
theorem addFeatures_explicit_uid_ids (features : List PyFeature) (layer_name : String)
    (h1 : ∀ f ∈ features, f.uid?.isSome = true)
    (h2 : ∀ f ∈ features, f.geom.recognized = true) :
    ∃ st, addFeatures features layer_name = Except.ok st ∧
      st.features.map (fun w => w.id) =
        (List.range features.length).map (fun (i : Nat) => (i : Int) + 1) := by
  obtain ⟨st2, hok, hids⟩ := foldlM_addFeature_ids features (initBuildState layer_name extents)
    h1 h2
  refine ⟨st2, hok, ?_⟩
  rw [hids]
  simp [initBuildState]

/-- Witness for `addFeatures_explicit_uid_ids`: two concrete features with
explicit identifiers produce wire ids 1 and 2. -/
theorem addFeatures_explicit_uid_ids_witness :
    ∃ st, addFeatures
        [⟨Shape.point 1 2, [("kind", PyVal.str "road")], some (PyVal.int 7)⟩,
         ⟨Shape.point 3 4, [], some (PyVal.int 8)⟩] "roads" = Except.ok st ∧
      st.features.map (fun w => w.id) =
        (List.range 2).map (fun (i : Nat) => (i : Int) + 1) :=
  addFeatures_explicit_uid_ids _ "roads" (by decide) (by decide)

/-! ## Decoding lemmas for the tolerance-0 fidelity claim -/

theorem unzigzag_zigzag_delta (a b : Int) (ha : |a| < 2 ^ 30) (hb : |b| < 2 ^ 30) :
    unzigzag (zigzag (a - b)) = a - b := by
  have h30 : (2 : Int) ^ 30 = 1073741824 := by norm_num
  have h31 : (2 : Int) ^ 31 = 2147483648 := by norm_num
  have ha' := abs_lt.mp ha
  have hb' := abs_lt.mp hb
  rw [h30] at ha' hb'
  refine zigzag_roundtrip _ ?_ ?_ <;> rw [h31] <;> omega

theorem decStep_x (s : DecState) (w : Int) (herr : s.err = false)
    (hh : s.half = Option.none) (hp : s.pending ≠ 0) :
    decStep s w = { s with half := some (unzigzag w) } := by
  unfold decStep
  rw [herr, hh]
  simp [hp]

theorem decStep_y (s : DecState) (dx : Int) (w : Int) (herr : s.err = false)
    (hh : s.half = some dx) :
    decStep s w = { s with
      half := Option.none, x := s.x + dx, y := s.y + unzigzag w,
      acc := s.acc ++ [(s.x + dx, s.y + unzigzag w)],
      pending := s.pending - 1 } := by
  unfold decStep
  rw [herr, hh]
  rfl

theorem decStep_cmd12 (s : DecState) (herr : s.err = false)
    (hh : s.half = Option.none) (hp : s.pending = 0) (n : Nat) (c : Int)
    (hc : c = 1 ∨ c = 2) :
    decStep s (8 * (n : Int) + c) = { s with pending := n } := by
  rcases hc with rfl | rfl
  · unfold decStep
    rw [herr, hh]
    simp only [Bool.false_eq_true, if_false, hp]
    rw [if_neg (by omega : ¬(0 : Nat) ≠ 0)]
    have hmod : (8 * (n : Int) + 1).emod 8 = 1 := by
      show (8 * (n : Int) + 1) % 8 = 1
      omega
    have hdiv : (8 * (n : Int) + 1).ediv 8 = (n : Int) := by
      show (8 * (n : Int) + 1) / 8 = (n : Int)
      omega
    rw [hmod, hdiv, Int.toNat_natCast]
    norm_num
  · unfold decStep
    rw [herr, hh]
    simp only [Bool.false_eq_true, if_false, hp]
    rw [if_neg (by omega : ¬(0 : Nat) ≠ 0)]
    have hmod : (8 * (n : Int) + 2).emod 8 = 2 := by
      show (8 * (n : Int) + 2) % 8 = 2
      omega
    have hdiv : (8 * (n : Int) + 2).ediv 8 = (n : Int) := by
      show (8 * (n : Int) + 2) / 8 = (n : Int)
      omega
    rw [hmod, hdiv, Int.toNat_natCast]
    norm_num

theorem decStep_cmd7 (s : DecState) (herr : s.err = false)
    (hh : s.half = Option.none) (hp : s.pending = 0) (w : Int) (hw : w.emod 8 = 7) :
    decStep s w = s := by
  unfold decStep
  rw [herr, hh]
  simp only [Bool.false_eq_true, if_false, hp]
  rw [if_neg (by omega : ¬(0 : Nat) ≠ 0), hw]
  rw [if_pos rfl]

theorem deltaWords_pair (p q : Int × Int) (rest : List (Int × Int)) :
    deltaWords (p :: q :: rest) =
      zigzag (q.1 - p.1) :: zigzag (q.2 - p.2) :: deltaWords (q :: rest) := by
  cases p
  cases q
  rfl

theorem deltaWords_single (p : Int × Int) : deltaWords [p] = [] := by
  cases p
  rfl

theorem deltaWords_append_last :
    ∀ (l : List (Int × Int)) (q p : Int × Int),
      deltaWords ((q :: l) ++ [p]) =
        deltaWords (q :: l) ++
          [zigzag (p.1 - (l.getLastD q).1), zigzag (p.2 - (l.getLastD q).2)]
  | [], q, p => by
      simp only [List.cons_append, List.nil_append]
      rw [deltaWords_pair, deltaWords_single, deltaWords_single]
      rfl
  | r :: l, q, p => by
      have ih := deltaWords_append_last l r p
      simp only [List.cons_append] at ih ⊢
      rw [deltaWords_pair, ih, deltaWords_pair, List.getLastD_cons]
      simp

theorem deltaWords_length :
    ∀ (l : List (Int × Int)) (q : Int × Int),
      (deltaWords (q :: l)).length = 2 * l.length
  | [], q => by rw [deltaWords_single]; rfl
  | r :: l, q => by
      rw [deltaWords_pair]
      have := deltaWords_length l r
      simp only [List.length_cons, this]
      ring

theorem listSet_append_mid (a : List Int) (w : Int) (t : List Int) (v : Int) :
    listSet (a ++ w :: t) ((a.length : Int)) v = a ++ v :: t := by
  unfold listSet
  rw [Int.toNat_natCast]
  rw [List.set_append]
  rw [if_neg (by omega)]
  simp

theorem mvLinePos_append (a b : List Coord) :
    mvLinePos (a ++ b) = mvLinePos a ++ mvLinePos b := by
  simp [mvLinePos, List.filter_append]

theorem mvLinePos_single12 (c : Coord) (h : c.cmd = 1 ∨ c.cmd = 2) :
    mvLinePos [c] = [(c.x, c.y)] := by
  rcases h with h | h <;> simp [mvLinePos, CMD_MOVE_TO, CMD_LINE_TO, h]

theorem mvLinePos_single7 (c : Coord) (h : c.cmd = 7) :
    mvLinePos [c] = [] := by
  simp [mvLinePos, CMD_MOVE_TO, CMD_LINE_TO, h]

theorem boundedPos_getLastD (l : List (Int × Int)) (d : Int × Int)
    (hd : BoundedPos d) (hl : ∀ p ∈ l, BoundedPos p) :
    BoundedPos (l.getLastD d) := by
  match l with
  | [] => exact hd
  | a :: t =>
      rw [List.getLastD_eq_getLast?, List.getLast?_eq_getLast (a :: t) (by simp)]
      exact hl _ (List.getLast_mem _)

theorem foldl_dec_deltaWords :
    ∀ (ps : List (Int × Int)) (cx cy : Int) (k : Nat) (A : List (Int × Int)),
      BoundedPos (cx, cy) → (∀ p ∈ ps, BoundedPos p) →
      (deltaWords ((cx, cy) :: ps)).foldl decStep
          ⟨ps.length + k, Option.none, cx, cy, A, false⟩ =
        ⟨k, Option.none, (ps.getLastD (cx, cy)).1, (ps.getLastD (cx, cy)).2,
          A ++ ps, false⟩
  | [], cx, cy, k, A, _, _ => by
      rw [deltaWords_single]
      simp
  | (a, b) :: rest, cx, cy, k, A, h0, hs => by
      have hab : BoundedPos (a, b) := hs (a, b) (by simp)
      have hx : unzigzag (zigzag (a - cx)) = a - cx :=
        unzigzag_zigzag_delta a cx hab.1 h0.1
      have hy : unzigzag (zigzag (b - cy)) = b - cy :=
        unzigzag_zigzag_delta b cy hab.2 h0.2
      show (zigzag (a - cx) :: zigzag (b - cy) :: deltaWords ((a, b) :: rest)).foldl
          decStep ⟨rest.length + 1 + k, Option.none, cx, cy, A, false⟩ = _
      simp only [List.foldl_cons]
      rw [decStep_x ⟨rest.length + 1 + k, Option.none, cx, cy, A, false⟩
        (zigzag (a - cx)) rfl rfl (by show rest.length + 1 + k ≠ 0; omega)]
      rw [decStep_y ⟨rest.length + 1 + k, some (unzigzag (zigzag (a - cx))), cx, cy, A, false⟩
        (unzigzag (zigzag (a - cx))) (zigzag (b - cy)) rfl rfl]
      simp only [hx, hy]
      have e1 : cx + (a - cx) = a := by ring
      have e2 : cy + (b - cy) = b := by ring
      rw [e1, e2]
      have htail := foldl_dec_deltaWords rest a b k (A ++ [(a, b)]) hab
        (fun p hp => hs p (by simp [hp]))
      have hpend : rest.length + 1 + k - 1 = rest.length + k := by omega
      rw [hpend, htail, List.getLastD_cons]
      simp

/-- Flushing the pending command word of an invariant state yields a word
list that decodes to all positions seen so far, with the decoder's cursor at
the encoder's cursor. -/
theorem flush_decode {done : List Coord} {s : GeoState} {pre : List Int}
    {runPs : List (Int × Int)} {cx cy : Int} {A : List (Int × Int)}
    (inv : GeoInv done s pre runPs cx cy A) :
    flushWord s = pre ++ encode_cmd_length s.cmd s.length ::
        deltaWords ((cx, cy) :: runPs) ∧
      (flushWord s).foldl decStep initDecState =
        ⟨0, Option.none, s.x_, s.y_, A ++ runPs, false⟩ := by
  have hx : (runPs.getLastD (cx, cy)).1 = s.x_ := by rw [← inv.cursor]
  have hy : (runPs.getLastD (cx, cy)).2 = s.y_ := by rw [← inv.cursor]
  have hflush : flushWord s = pre ++ encode_cmd_length s.cmd s.length ::
      deltaWords ((cx, cy) :: runPs) := by
    unfold flushWord
    rw [if_pos (by rw [inv.idx_eq]; exact Int.natCast_nonneg _)]
    rw [inv.geom_eq, inv.idx_eq, listSet_append_mid]
  refine ⟨hflush, ?_⟩
  rw [hflush]
  have hsplit : pre ++ encode_cmd_length s.cmd s.length ::
      deltaWords ((cx, cy) :: runPs) =
      (pre ++ [encode_cmd_length s.cmd s.length]) ++ deltaWords ((cx, cy) :: runPs) := by
    simp
  rw [hsplit, List.foldl_append, List.foldl_append, inv.dec, List.foldl_cons,
    List.foldl_nil]
  rcases inv.cmdv with hcmd | hcmd | hcmd
  · obtain ⟨hlen, _⟩ := inv.run12 (Or.inl hcmd)
    have henc : encode_cmd_length s.cmd s.length = 8 * (runPs.length : Int) + 1 := by
      rw [hlen, hcmd]
      exact encode_cmd_length_eq 1 (by left; rfl) runPs.length
    rw [henc, decStep_cmd12 _ rfl rfl rfl runPs.length 1 (Or.inl rfl)]
    have := foldl_dec_deltaWords runPs cx cy 0 A inv.bnd0 inv.bnds
    rw [Nat.add_zero] at this
    rw [this, hx, hy]
  · obtain ⟨hlen, _⟩ := inv.run12 (Or.inr hcmd)
    have henc : encode_cmd_length s.cmd s.length = 8 * (runPs.length : Int) + 2 := by
      rw [hlen, hcmd]
      exact encode_cmd_length_eq 2 (by right; left; rfl) runPs.length
    rw [henc, decStep_cmd12 _ rfl rfl rfl runPs.length 2 (Or.inr rfl)]
    have := foldl_dec_deltaWords runPs cx cy 0 A inv.bnd0 inv.bnds
    rw [Nat.add_zero] at this
    rw [this, hx, hy]
  · obtain ⟨hrun, hlen⟩ := inv.run7 hcmd
    subst hrun
    rw [deltaWords_single, List.foldl_nil]
    have henc : encode_cmd_length s.cmd s.length = 15 := by
      rw [hlen, hcmd]
      decide
    rw [henc, decStep_cmd7 _ rfl rfl rfl 15 (by decide)]
    simp only [List.getLastD] at hx hy
    rw [hx, hy]
    simp

/-- One loop step at tolerance 0 preserves the decode invariant. -/
theorem geoStep_preserves (c : Coord) (next? : Option Coord) {done : List Coord}
    {s : GeoState} {pre : List Int} {runPs : List (Int × Int)} {cx cy : Int}
    {A : List (Int × Int)} (inv : GeoInv done s pre runPs cx cy A)
    (hc : c.cmd = 1 ∨ c.cmd = 2 ∨ c.cmd = 7) (hb : BoundedPos (c.x, c.y)) :
    ∃ s1, geoStep 0 c next? s = some s1 ∧ InvEx (done ++ [c]) s1 := by
  have hx : (runPs.getLastD (cx, cy)).1 = s.x_ := by rw [← inv.cursor]
  have hy : (runPs.getLastD (cx, cy)).2 = s.y_ := by rw [← inv.cursor]
  by_cases hsame : c.cmd = s.cmd
  · have hsplitc : (s.cmd = 1 ∨ s.cmd = 2) ∨ s.cmd = 7 := by
      rcases inv.cmdv with h | h | h
      exacts [Or.inl (Or.inl h), Or.inl (Or.inr h), Or.inr h]
    rcases hsplitc with hcmd | hcmd
    -- continuing a MoveTo or LineTo run
    · have hc12 : c.cmd = 1 ∨ c.cmd = 2 := by omega
      obtain ⟨hlen, hne⟩ := inv.run12 (by omega)
      refine ⟨_, geoStep_mvline_cont c next? s hc12 hsame inv.skip, ?_⟩
      refine ⟨pre, runPs ++ [(c.x, c.y)], cx, cy, A, ⟨?_, inv.idx_eq, rfl, rfl,
        inv.dec, ?_, ?_, ?_, ?_, ?_, inv.bnd0, ?_⟩⟩
      · rw [inv.geom_eq]
        have hdw : deltaWords ((cx, cy) :: (runPs ++ [(c.x, c.y)])) =
            deltaWords ((cx, cy) :: runPs) ++
              [zigzag (c.x - s.x_), zigzag (c.y - s.y_)] := by
          have := deltaWords_append_last runPs (cx, cy) (c.x, c.y)
          simp only [List.cons_append] at this ⊢
          rw [this, hx, hy]
        rw [hdw]
        simp
      · rw [mvLinePos_append, mvLinePos_single12 c hc12, ← inv.pos]
        simp
      · rw [List.getLastD_concat]
      · intro _
        constructor
        · show s.length + 1 = ((runPs ++ [(c.x, c.y)]).length : Int)
          rw [hlen]
          simp
        · simp
      · intro h7
        have h7' : s.cmd = 7 := h7
        exact absurd h7' (by omega)
      · show s.cmd = 1 ∨ s.cmd = 2 ∨ s.cmd = 7
        omega
      · intro p hp
        rcases List.mem_append.mp hp with h | h
        · exact inv.bnds p h
        · simp only [List.mem_singleton] at h
          subst h
          exact hb
    -- continuing a ClosePath run
    · refine ⟨s, geoStep_seg_same 0 c next? s (by omega) hsame inv.prev, ?_⟩
      refine ⟨pre, runPs, cx, cy, A, ⟨inv.geom_eq, inv.idx_eq, inv.skip, inv.prev,
        inv.dec, ?_, inv.cursor, inv.run12, inv.run7, inv.cmdv, inv.bnd0, inv.bnds⟩⟩
      rw [mvLinePos_append, mvLinePos_single7 c (by omega), ← inv.pos]
      simp
  · obtain ⟨hflush, hdec⟩ := flush_decode inv
    have hbnd : BoundedPos (s.x_, s.y_) := by
      rw [inv.cursor]
      exact boundedPos_getLastD runPs (cx, cy) inv.bnd0 inv.bnds
    have hsplitc : (c.cmd = 1 ∨ c.cmd = 2) ∨ c.cmd = 7 := by
      rcases hc with h | h | h
      exacts [Or.inl (Or.inl h), Or.inl (Or.inr h), Or.inr h]
    rcases hsplitc with hc12' | hc7
    · refine ⟨_, geoStep_mvline_new c next? s hc12' hsame inv.skip, ?_⟩
      refine ⟨flushWord s, [(c.x, c.y)], s.x_, s.y_, A ++ runPs, ⟨?_, rfl, rfl, rfl,
        hdec, ?_, ?_, ?_, ?_, ?_, hbnd, ?_⟩⟩
      · rw [deltaWords_pair, deltaWords_single]
      · rw [mvLinePos_append, mvLinePos_single12 c hc12', ← inv.pos]
      · rfl
      · intro _
        exact ⟨rfl, by simp⟩
      · intro h7
        have h7' : c.cmd = 7 := h7
        exact absurd h7' (by omega)
      · show c.cmd = 1 ∨ c.cmd = 2 ∨ c.cmd = 7
        omega
      · intro p hp
        simp only [List.mem_singleton] at hp
        subst hp
        exact hb
    · refine ⟨_, geoStep_seg_new 0 c next? s hc7 hsame inv.prev, ?_⟩
      refine ⟨flushWord s, [], s.x_, s.y_, A ++ runPs, ⟨?_, rfl, inv.skip, rfl,
        hdec, ?_, rfl, ?_, fun _ => ⟨rfl, rfl⟩, Or.inr (Or.inr rfl), hbnd,
        by intro p hp; simp at hp⟩⟩
      · rw [deltaWords_single]
      · rw [mvLinePos_append, mvLinePos_single7 c hc7, ← inv.pos]
      · intro h12
        have h12' : (7 : Int) = 1 ∨ (7 : Int) = 2 := h12
        exact absurd h12' (by decide)

/-- The first loop step (from the initial state) establishes the invariant. -/
theorem geoStep_init (c : Coord) (next? : Option Coord)
    (hc : c.cmd = 1 ∨ c.cmd = 2 ∨ c.cmd = 7) (hb : BoundedPos (c.x, c.y)) :
    ∃ s1, geoStep 0 c next? initGeoState = some s1 ∧ InvEx [c] s1 := by
  have hne : c.cmd ≠ initGeoState.cmd := by
    show c.cmd ≠ -1
    omega
  have hfl : flushWord initGeoState = [] := rfl
  have hsplitc : (c.cmd = 1 ∨ c.cmd = 2) ∨ c.cmd = 7 := by
    rcases hc with h | h | h
    exacts [Or.inl (Or.inl h), Or.inl (Or.inr h), Or.inr h]
  rcases hsplitc with hc12 | hc7
  · refine ⟨_, geoStep_mvline_new c next? initGeoState hc12 hne rfl, ?_⟩
    refine ⟨flushWord initGeoState, [(c.x, c.y)], 0, 0, [], ⟨?_, ?_, rfl, rfl,
      rfl, ?_, ?_, ?_, ?_, ?_, by decide, ?_⟩⟩
    · rw [deltaWords_pair, deltaWords_single, hfl]
      rfl
    · rw [hfl]
    · rw [mvLinePos_single12 c hc12]
      rfl
    · rfl
    · intro _
      exact ⟨rfl, by simp⟩
    · intro h7
      have h7' : c.cmd = 7 := h7
      exact absurd h7' (by omega)
    · show c.cmd = 1 ∨ c.cmd = 2 ∨ c.cmd = 7
      omega
    · intro p hp
      simp only [List.mem_singleton] at hp
      subst hp
      exact hb
  · refine ⟨_, geoStep_seg_new 0 c next? initGeoState hc7 hne rfl, ?_⟩
    refine ⟨flushWord initGeoState, [], 0, 0, [], ⟨?_, ?_, rfl, rfl, rfl, ?_, rfl,
      ?_, fun _ => ⟨rfl, rfl⟩, Or.inr (Or.inr rfl), by decide,
      by intro p hp; simp at hp⟩⟩
    · rw [deltaWords_single, hfl]
    · rw [hfl]
    · rw [mvLinePos_single7 c hc7]
      rfl
    · intro h12
      have h12' : (7 : Int) = 1 ∨ (7 : Int) = 2 := h12
      exact absurd h12' (by decide)

/-- The loop preserves the invariant along a whole valid, bounded stream. -/
theorem geoLoop_inv :
    ∀ (cs : List Coord) (done : List Coord) (s : GeoState), InvEx done s →
      (∀ c ∈ cs, c.cmd = 1 ∨ c.cmd = 2 ∨ c.cmd = 7) →
      (∀ c ∈ cs, BoundedPos (c.x, c.y)) →
      ∃ s1, geoLoop 0 cs s = some s1 ∧ InvEx (done ++ cs) s1
  | [], done, s, inv, _, _ => ⟨s, rfl, by simpa using inv⟩
  | c :: rest, done, s, inv, hv, hb => by
      obtain ⟨pre, runPs, cx, cy, A, inv0⟩ := inv
      obtain ⟨s1, hs1, hinv1⟩ := geoStep_preserves c rest.head? inv0
        (hv c (by simp)) (hb c (by simp))
      obtain ⟨s2, hs2, hinv2⟩ := geoLoop_inv rest (done ++ [c]) s1 hinv1
        (fun d hd => hv d (by simp [hd])) (fun d hd => hb d (by simp [hd]))
      refine ⟨s2, ?_, ?_⟩
      · simp only [geoLoop, hs1, hs2]
      · simpa using hinv2

/-- Tolerance-0 decode correctness for any stream of known commands with
tile-local (bounded) coordinates: the encoder succeeds and cumulative delta
accumulation over its output reproduces exactly the positions of all
MoveTo/LineTo entries. -/
theorem geo_encode_decodes (cs : List Coord)
    (hv : ∀ c ∈ cs, c.cmd = 1 ∨ c.cmd = 2 ∨ c.cmd = 7)
    (hb : ∀ c ∈ cs, BoundedPos (c.x, c.y)) :
    ∃ ws, geo_encode tolerance cs = some ws ∧
      decodePositions ws = some (mvLinePos cs) := by
  match cs with
  | [] => exact ⟨[], rfl, rfl⟩
  | c :: rest =>
    obtain ⟨s1, hs1, hinv1⟩ := geoStep_init c rest.head? (hv c (by simp))
      (hb c (by simp))
    obtain ⟨s2, hs2, hinv2⟩ := geoLoop_inv rest [c] s1 hinv1
      (fun d hd => hv d (by simp [hd])) (fun d hd => hb d (by simp [hd]))
    obtain ⟨pre, runPs, cx, cy, A, inv2⟩ := hinv2
    obtain ⟨hflush, hdec⟩ := flush_decode inv2
    have hloop : geoLoop 0 (c :: rest) initGeoState = some s2 := by
      simp only [geoLoop, hs1, hs2]
    have henc : geo_encode tolerance (c :: rest) = some (flushWord s2) := by
      show geo_encode 0 (c :: rest) = some (flushWord s2)
      unfold geo_encode
      rw [hloop]
      simp only [Option.map_some']
      congr 1
      rw [if_neg (by rw [inv2.skip]; simp)]
    refine ⟨flushWord s2, henc, ?_⟩
    unfold decodePositions
    rw [hdec]
    simp only [Option.isSome_none, Bool.false_eq_true, or_self, if_false]
    rw [if_neg (by simp)]
    rw [inv2.pos]
    rfl

/-- Claim C4: with tolerance 0 (the module default) no vertex is ever
skipped: for every Point/LineString/Polygon input with tile-local (bounded)
integer coordinates, `_geo_encode` succeeds and accumulating the unzigzagged
deltas of its output from the origin reproduces exactly the tile-local
(y-flipped) coordinates of every MoveTo/LineTo entry of the ring stream. -/
theorem tolerance_zero_fidelity (ext : Int) (shape : Shape)
    (hk : shape.isPLP = true) (cs : List Coord)
    (hcs : parseGeometry ext shape = .ok cs)
    (hb : ∀ c ∈ cs, BoundedPos (c.x, c.y)) :
    ∃ ws, geo_encode tolerance cs = some ws ∧
      decodePositions ws = some (mvLinePos cs) :=
  geo_encode_decodes cs (parseGeometry_cmds ext shape cs hcs) hb

/-- Witness for `tolerance_zero_fidelity`: a concrete 3-point LineString. -/
theorem tolerance_zero_fidelity_witness :
    ∃ ws, geo_encode tolerance [⟨1, 4094, 1⟩, ⟨3, 4092, 2⟩, ⟨7, 4092, 2⟩] = some ws ∧
      decodePositions ws =
        some (mvLinePos [⟨1, 4094, 1⟩, ⟨3, 4092, 2⟩, ⟨7, 4092, 2⟩]) :=
  tolerance_zero_fidelity 4096 (.lineString [(1, 2), (3, 4), (7, 4)]) (by decide)
    [⟨1, 4094, 1⟩, ⟨3, 4092, 2⟩, ⟨7, 4092, 2⟩] rfl (by decide)

/-! ## Exact output shape for a polygon ring: Claim C7 -/

theorem geoLoop_line_run :
    ∀ (vs : List (Int × Int)) (tail : List Coord) (s : GeoState),
      s.cmd = 2 → s.skipped_last = false →
      geoLoop 0 (vs.map (fun q => ⟨q.1, q.2, 2⟩) ++ tail) s =
        geoLoop 0 tail (lineRunState vs s)
  | [], tail, s, _, _ => by simp [lineRunState]
  | (a, b) :: rest, tail, s, hcmd, hsk => by
      simp only [List.map_cons, List.cons_append, geoLoop]
      rw [geoStep_mvline_cont ⟨a, b, 2⟩ _ s (Or.inr rfl) hcmd.symm hsk]
      exact geoLoop_line_run rest tail _ hcmd rfl

theorem lineRunState_geom :
    ∀ (vs : List (Int × Int)) (s : GeoState),
      (lineRunState vs s).geom = s.geom ++ deltaWords ((s.x_, s.y_) :: vs)
  | [], s => by
      rw [lineRunState, deltaWords_single]
      simp
  | (a, b) :: rest, s => by
      rw [lineRunState, lineRunState_geom rest _, deltaWords_pair]
      simp

theorem lineRunState_fields :
    ∀ (vs : List (Int × Int)) (s : GeoState),
      (lineRunState vs s).cmd = s.cmd ∧
      (lineRunState vs s).cmd_idx = s.cmd_idx ∧
      (lineRunState vs s).length = s.length + vs.length ∧
      (lineRunState vs s).x_ = (vs.getLastD (s.x_, s.y_)).1 ∧
      (lineRunState vs s).y_ = (vs.getLastD (s.x_, s.y_)).2 ∧
      ((lineRunState vs s).skipped_last = s.skipped_last ∨
        (lineRunState vs s).skipped_last = false) ∧
      ((lineRunState vs s).prev_cmd = s.prev_cmd ∨ (lineRunState vs s).prev_cmd = s.cmd)
  | [], s => by
      rw [lineRunState]
      exact ⟨rfl, rfl, by simp, rfl, rfl, Or.inl rfl, Or.inl rfl⟩
  | (a, b) :: rest, s => by
      rw [lineRunState]
      obtain ⟨h1, h2, h3, h4, h5, h6, h7⟩ := lineRunState_fields rest
        { s with
          geom := s.geom ++ [zigzag (a - s.x_), zigzag (b - s.y_)],
          x_ := a, y_ := b, skipped_last := false, length := s.length + 1,
          cur_x := a, cur_y := b, prev_cmd := s.cmd }
      refine ⟨h1, h2, ?_, ?_, ?_, ?_, ?_⟩
      · rw [h3]
        show s.length + 1 + (rest.length : Int) = s.length + ((rest.length + 1 : Nat) : Int)
        push_cast
        ring
      · rw [h4, List.getLastD_cons]
      · rw [h5, List.getLastD_cons]
      · rcases h6 with h | h
        · exact Or.inr h
        · exact Or.inr h
      · rcases h7 with h | h
        · exact Or.inr (h.trans rfl)
        · exact Or.inr (h.trans rfl)

/-- `arcTail` of a list with an explicit final element: LineTo entries for
the middle, one final entry closed by `CMD_SEG_END` when the arc is a ring. -/
theorem arcTail_concat (ext : Int) (poly : Bool) :
    ∀ (l : List (Int × Int)) (p : Int × Int),
      arcTail ext poly (l ++ [p]) =
        l.map (fun q => get_point_obj ext q.1 q.2 CMD_LINE_TO) ++
          [get_point_obj ext p.1 p.2 (if poly then CMD_SEG_END else CMD_LINE_TO)]
  | [], p => rfl
  | [q], p => rfl
  | q :: r :: l, p => by
      show get_point_obj ext q.1 q.2 CMD_LINE_TO :: arcTail ext poly ((r :: l) ++ [p]) = _
      rw [arcTail_concat ext poly (r :: l) p]
      rfl

theorem geoLoop_cons (tol : Int) (c : Coord) (rest : List Coord) (s s1 : GeoState)
    (h : geoStep tol c rest.head? s = some s1) :
    geoLoop tol (c :: rest) s = geoLoop tol rest s1 := by
  simp only [geoLoop, h]

/-- Exact output of `_geo_encode` at tolerance 0 on one MoveTo, a nonempty
LineTo run, and one ClosePath: the MoveTo word with the first delta pair, the
LineTo word carrying the run length, the remaining delta pairs, and a
length-1 ClosePath word. -/
theorem geo_encode_M_L_E (p : Int × Int) (vs : List (Int × Int)) (q : Int × Int)
    (hvs : vs ≠ []) :
    geo_encode 0 (⟨p.1, p.2, 1⟩ :: ((vs.map fun v => ⟨v.1, v.2, 2⟩) ++ [⟨q.1, q.2, 7⟩])) =
      some (encode_cmd_length 1 1 :: zigzag (p.1 - 0) :: zigzag (p.2 - 0) ::
        encode_cmd_length 2 (vs.length : Int) :: (deltaWords (p :: vs) ++
          [encode_cmd_length 7 1])) := by
  obtain ⟨v1, vrest, rfl⟩ : ∃ v1 vrest, vs = v1 :: vrest := by
    cases vs with
    | nil => exact absurd rfl hvs
    | cons a t => exact ⟨a, t, rfl⟩
  have hstep1 : geoStep 0 ⟨p.1, p.2, 1⟩
      ((((v1 :: vrest).map fun (v : Int × Int) => (⟨v.1, v.2, 2⟩ : Coord)) ++
        [(⟨q.1, q.2, 7⟩ : Coord)]).head?)
      initGeoState = some
      { geom := [0, zigzag (p.1 - 0), zigzag (p.2 - 0)], x_ := p.1, y_ := p.2,
        cmd := 1, cmd_idx := 0, length := 1, skipped_index := -1,
        skipped_last := false, cur_x := p.1, cur_y := p.2, prev_cmd := 1 } := by
    rw [geoStep_mvline_new ⟨p.1, p.2, 1⟩ _ initGeoState (Or.inl rfl)
      (show (1 : Int) ≠ -1 by norm_num) rfl]
    rfl
  have hstep2 : geoStep 0 ⟨v1.1, v1.2, 2⟩
      (((vrest.map fun (v : Int × Int) => (⟨v.1, v.2, 2⟩ : Coord)) ++
        [(⟨q.1, q.2, 7⟩ : Coord)]).head?)
      { geom := [0, zigzag (p.1 - 0), zigzag (p.2 - 0)], x_ := p.1, y_ := p.2,
        cmd := 1, cmd_idx := 0, length := 1, skipped_index := -1,
        skipped_last := false, cur_x := p.1, cur_y := p.2, prev_cmd := 1 } = some
      { geom := [encode_cmd_length 1 1, zigzag (p.1 - 0), zigzag (p.2 - 0), 0,
          zigzag (v1.1 - p.1), zigzag (v1.2 - p.2)],
        x_ := v1.1, y_ := v1.2, cmd := 2, cmd_idx := 3, length := 1,
        skipped_index := -1, skipped_last := false, cur_x := v1.1, cur_y := v1.2,
        prev_cmd := 2 } := by
    rw [geoStep_mvline_new ⟨v1.1, v1.2, 2⟩ _ _ (Or.inr rfl)
      (show (2 : Int) ≠ 1 by norm_num) rfl]
    rfl
  set S2 : GeoState :=
    { geom := [encode_cmd_length 1 1, zigzag (p.1 - 0), zigzag (p.2 - 0), 0,
        zigzag (v1.1 - p.1), zigzag (v1.2 - p.2)],
      x_ := v1.1, y_ := v1.2, cmd := 2, cmd_idx := 3, length := 1,
      skipped_index := -1, skipped_last := false, cur_x := v1.1, cur_y := v1.2,
      prev_cmd := 2 } with hS2
  set S3 : GeoState := lineRunState vrest S2 with hS3
  have hfld := lineRunState_fields vrest S2
  rw [← hS3] at hfld
  have hcmd3 : S3.cmd = 2 := hfld.1
  have hprev3 : S3.prev_cmd = S3.cmd := by
    rcases hfld.2.2.2.2.2.2 with h | h <;> rw [h, hfld.1]
  have hsk3 : S3.skipped_last = false := by
    rcases hfld.2.2.2.2.2.1 with h | h <;> rw [h]
  have hgeom3 : S3.geom =
      [encode_cmd_length 1 1, zigzag (p.1 - 0), zigzag (p.2 - 0)] ++ 0 ::
        (zigzag (v1.1 - p.1) :: zigzag (v1.2 - p.2) :: deltaWords (v1 :: vrest)) := by
    rw [hS3, lineRunState_geom]
    simp [hS2]
  have hlen3 : S3.length = 1 + (vrest.length : Int) := by
    rw [hfld.2.2.1]
  have hfl3 : flushWord S3 =
      [encode_cmd_length 1 1, zigzag (p.1 - 0), zigzag (p.2 - 0)] ++
        encode_cmd_length 2 (1 + (vrest.length : Int)) ::
        (zigzag (v1.1 - p.1) :: zigzag (v1.2 - p.2) :: deltaWords (v1 :: vrest)) := by
    unfold flushWord
    rw [if_pos (show S3.cmd_idx ≥ 0 by rw [hfld.2.1]; norm_num)]
    rw [hgeom3, hfld.2.1, hcmd3, hlen3]
    exact listSet_append_mid [encode_cmd_length 1 1, zigzag (p.1 - 0),
      zigzag (p.2 - 0)] 0 _ _
  set S4 : GeoState :=
    { S3 with
      cmd := 7, cmd_idx := ((flushWord S3).length : Int),
      geom := flushWord S3 ++ [0], length := 1, prev_cmd := 7 } with hS4
  have hstep4 : geoStep 0 ⟨q.1, q.2, 7⟩ ([] : List Coord).head? S3 = some S4 := by
    rw [hS4]
    exact geoStep_seg_new 0 ⟨q.1, q.2, 7⟩ _ S3 rfl (by rw [hcmd3]; norm_num) hprev3
  have hloop : geoLoop 0
      ((⟨p.1, p.2, 1⟩ : Coord) ::
        (((v1 :: vrest).map fun (v : Int × Int) => (⟨v.1, v.2, 2⟩ : Coord)) ++
          [(⟨q.1, q.2, 7⟩ : Coord)]))
      initGeoState = some S4 := by
    rw [geoLoop_cons 0 _ _ _ _ hstep1]
    simp only [List.map_cons, List.cons_append]
    rw [geoLoop_cons 0 _ _ _ _ hstep2]
    rw [geoLoop_line_run vrest [⟨q.1, q.2, 7⟩] S2 rfl rfl, ← hS3]
    rw [geoLoop_cons 0 _ _ _ _ hstep4]
    rfl
  have hsk4 : S4.skipped_last = false := by
    rw [hS4]
    show S3.skipped_last = false
    exact hsk3
  have hfl4 : flushWord S4 =
      listSet (flushWord S3 ++ [0]) ((flushWord S3).length : Int)
        (encode_cmd_length 7 1) := by
    unfold flushWord
    rw [if_pos (show S4.cmd_idx ≥ 0 by rw [hS4]; exact Int.natCast_nonneg _)]
    rw [hS4]
    rfl
  show geo_encode 0 ((⟨p.1, p.2, 1⟩ : Coord) ::
      (((v1 :: vrest).map fun (v : Int × Int) => (⟨v.1, v.2, 2⟩ : Coord)) ++
        [(⟨q.1, q.2, 7⟩ : Coord)])) = _
  unfold geo_encode
  rw [hloop]
  simp only [Option.map_some']
  rw [if_neg (by rw [hsk4]; simp)]
  show some (flushWord S4) = _
  rw [hfl4]
  rw [listSet_append_mid (flushWord S3) 0 [] (encode_cmd_length 7 1)]
  rw [hfl3, deltaWords_pair]
  have hlen : (1 : Int) + (vrest.length : Int) = (((v1 :: vrest).length : Nat) : Int) := by
    simp only [List.length_cons]
    push_cast
    ring
  rw [hlen]
  simp

/-- Claim C7: for every closed polygon ring with K ≥ 4 vertices (the last
vertex equal to the first), the encoded geometry for the ring is exactly a
MoveTo command word of length 1, one zigzag delta pair, a LineTo command word
of length K - 2, the remaining K - 2 delta pairs, and a single ClosePath
command word of length 1 at the very end; only the ring's first K - 1
vertices contribute delta pairs (K - 1 pairs in all, 2 * (K - 1) delta
words), so the closing vertex's coordinates are never re-emitted. -/
theorem polygon_ring_encoding (ext : Int) (ring : List (Int × Int))
    (h4 : 4 ≤ ring.length) (hclosed : ring.getLast? = ring.head?) :
    ∃ cs, parseGeometry ext (.polygon ring []) = .ok cs ∧
      geo_encode tolerance cs =
        some (encode_cmd_length CMD_MOVE_TO 1 ::
          ((deltaWords ((0, 0) :: ring.dropLast.map (fun v => (v.1, ext - v.2)))).take 2 ++
            encode_cmd_length CMD_LINE_TO ((ring.length : Int) - 2) ::
            ((deltaWords ((0, 0) :: ring.dropLast.map (fun v => (v.1, ext - v.2)))).drop 2 ++
              [encode_cmd_length CMD_SEG_END 1]))) ∧
      (deltaWords ((0, 0) :: ring.dropLast.map (fun v => (v.1, ext - v.2)))).length =
        2 * (ring.length - 1) := by
  obtain ⟨r0, rest1, rfl⟩ : ∃ a t, ring = a :: t := by
    cases ring with
    | nil => simp at h4
    | cons a t => exact ⟨a, t, rfl⟩
  obtain ⟨r1, rest2, rfl⟩ : ∃ a t, rest1 = a :: t := by
    cases rest1 with
    | nil => simp at h4
    | cons a t => exact ⟨a, t, rfl⟩
  rcases List.eq_nil_or_concat rest2 with rfl | ⟨mid, rl, hcat⟩
  · simp at h4
  rw [List.concat_eq_append] at hcat
  subst hcat
  have harc : get_arc_obj ext (r0 :: r1 :: (mid ++ [rl])) true =
      (⟨r0.1, ext - r0.2, 1⟩ : Coord) ::
        ((((r1 :: mid).map (fun v => (v.1, ext - v.2))).map
            fun (v : Int × Int) => (⟨v.1, v.2, 2⟩ : Coord)) ++
          [(⟨rl.1, ext - rl.2, 7⟩ : Coord)]) := by
    show get_point_obj ext r0.1 r0.2 CMD_MOVE_TO ::
        arcTail ext true (r1 :: (mid ++ [rl])) = _
    rw [← List.cons_append, arcTail_concat]
    simp [get_point_obj, List.map_map, Function.comp, CMD_MOVE_TO, CMD_LINE_TO,
      CMD_SEG_END]
  have key : geo_encode 0
      ((⟨r0.1, ext - r0.2, 1⟩ : Coord) ::
        ((((r1 :: mid).map (fun v => (v.1, ext - v.2))).map
            fun (v : Int × Int) => (⟨v.1, v.2, 2⟩ : Coord)) ++
          [(⟨rl.1, ext - rl.2, 7⟩ : Coord)])) =
      some (encode_cmd_length 1 1 :: zigzag (r0.1 - 0) :: zigzag (ext - r0.2 - 0) ::
        encode_cmd_length 2 ((((r1 :: mid).map (fun v => (v.1, ext - v.2))).length : Nat) : Int) ::
        (deltaWords ((r0.1, ext - r0.2) :: (r1 :: mid).map (fun v => (v.1, ext - v.2))) ++
          [encode_cmd_length 7 1])) :=
    geo_encode_M_L_E (r0.1, ext - r0.2) ((r1 :: mid).map (fun v => (v.1, ext - v.2)))
      (rl.1, ext - rl.2) (by simp)
  have hdrop : (r0 :: r1 :: (mid ++ [rl])).dropLast = r0 :: r1 :: mid := by
    rw [← List.cons_append, ← List.cons_append]
    exact List.dropLast_concat
  refine ⟨get_arc_obj ext (r0 :: r1 :: (mid ++ [rl])) true, ?_, ?_, ?_⟩
  · simp [parseGeometry]
  · have hK : ((r0 :: r1 :: (mid ++ [rl])).length : Int) - 2 =
        ((((r1 :: mid).map (fun v => (v.1, ext - v.2))).length : Nat) : Int) := by
      simp
      ring
    rw [show tolerance = (0 : Int) from rfl, harc, key, hdrop, hK]
    simp only [List.map_cons, deltaWords_pair, List.take_succ_cons, List.take_zero,
      List.drop_succ_cons, List.drop_zero, List.cons_append, List.nil_append,
      CMD_MOVE_TO, CMD_LINE_TO, CMD_SEG_END]
  · rw [hdrop]
    have := deltaWords_length ((r0 :: r1 :: mid).map (fun v => (v.1, ext - v.2))) (0, 0)
    rw [this]
    simp

/-- Witness for `polygon_ring_encoding`: the concrete closed 5-vertex ring
(0,0)-(4,0)-(4,3)-(2,5)-(0,0) at extent 10. -/
theorem polygon_ring_encoding_witness :
    ∃ cs, parseGeometry 10 (.polygon [(0, 0), (4, 0), (4, 3), (2, 5), (0, 0)] []) = .ok cs ∧
      geo_encode tolerance cs =
        some (encode_cmd_length CMD_MOVE_TO 1 ::
          ((deltaWords ((0, 0) :: ([(0, 0), (4, 0), (4, 3), (2, 5), (0, 0)] :
              List (Int × Int)).dropLast.map (fun v => (v.1, 10 - v.2)))).take 2 ++
            encode_cmd_length CMD_LINE_TO
              ((([(0, 0), (4, 0), (4, 3), (2, 5), (0, 0)] : List (Int × Int)).length : Int) - 2) ::
            ((deltaWords ((0, 0) :: ([(0, 0), (4, 0), (4, 3), (2, 5), (0, 0)] :
                List (Int × Int)).dropLast.map (fun v => (v.1, 10 - v.2)))).drop 2 ++
              [encode_cmd_length CMD_SEG_END 1]))) ∧
      (deltaWords ((0, 0) :: ([(0, 0), (4, 0), (4, 3), (2, 5), (0, 0)] :
          List (Int × Int)).dropLast.map (fun v => (v.1, 10 - v.2)))).length =
        2 * (([(0, 0), (4, 0), (4, 3), (2, 5), (0, 0)] : List (Int × Int)).length - 1) :=
  polygon_ring_encoding 10 [(0, 0), (4, 0), (4, 3), (2, 5), (0, 0)] (by decide) (by decide)
